import Mathlib

/-!
Shallow embedding of the WhisperMind RAG retrieval pipeline
(`src/rag/document_processor.py`, `src/rag/vector_store.py`,
`src/rag/retriever.py`) and verification of the frozen claims about it.

Modelling conventions:
* Python strings are modelled as `List Char`; string literals enter via `.data`.
* Python floats are modelled as exact rationals `ℚ`.  The float constants used
  by the code (`0.5`, `0.1`, `1e12`, `1.0`) are exactly representable, and the
  quantities compared stay far from the precision edge, so the exact-rational
  model matches the float code on everything the claims talk about.
* Python `int` indices that can go negative (chunk window starts) are `Int`,
  with Python slice semantics made explicit (`pySlice`).
* The `while` loop of `_split_text` is modelled with explicit fuel, because its
  termination is itself one of the claims under examination.
-/

namespace WhisperMind

/-! ### Python string primitives -/

/-- Python `str.strip()` (whitespace trim on both ends). -/
def pyStrip (l : List Char) : List Char :=
  ((l.dropWhile Char.isWhitespace).reverse.dropWhile Char.isWhitespace).reverse

/-- ASCII lower-casing of one character, as `str.lower()` acts on the
ASCII range handled by this code base. -/
def lowerChar (c : Char) : Char :=
  if c.isUpper then Char.ofNat (c.toNat + 32) else c

/-- Python `str.lower()`. -/
def pyLower (l : List Char) : List Char := l.map lowerChar

/-- Python `needle in haystack` (substring containment). -/
def containsSub (n : List Char) : List Char → Bool
  | [] => n.isEmpty
  | c :: t => n.isPrefixOf (c :: t) || containsSub n t

/-- Python `str.split()` with no argument: maximal runs of
non-whitespace characters. -/
def pyWords (l : List Char) : List (List Char) :=
  (l.splitOnP Char.isWhitespace).filter (fun w => !w.isEmpty)

/-- Python slice `l[a:b]` with the usual negative-index normalisation. -/
def pySlice (l : List Char) (a b : Int) : List Char :=
  let n : Int := l.length
  let a' : Int := if a < 0 then max 0 (n + a) else min a n
  let b' : Int := if b < 0 then max 0 (n + b) else min b n
  (l.drop a'.toNat).take (b' - a').toNat

/-- Python `haystack.rfind(needle)`: largest index at which `needle`
occurs as a substring, `-1` if it does not occur. -/
def rfindSub (n h : List Char) : Int :=
  match ((List.range (h.length + 1)).filter (fun i => n.isPrefixOf (h.drop i))).getLast? with
  | some i => (i : Int)
  | none => -1

/-! ### Chunker: `DocumentProcessor._split_text`
(`src/rag/document_processor.py`, lines 222-259) -/

/-- The sentence-boundary markers tried, in source order
(`['. ', '.\n', '!\n', '?\n']`). -/
def delimiters : List (List Char) :=
  [['.', ' '], ['.', '\n'], ['!', '\n'], ['?', '\n']]

/-- The `for delimiter in [...]` loop of `_split_text`: return the cut
offset `last_delimiter + len(delimiter)` for the first delimiter in order
whose last occurrence satisfies `last_delimiter > chunk_size * 0.5`,
else `none`.  The float comparison `ld > cs * 0.5` is exact and equals
the integer comparison `2*ld > cs`. -/
def findCut (cs : Nat) (chunkText : List Char) : List (List Char) → Option Int
  | [] => none
  | d :: ds =>
    let ld := rfindSub d chunkText
    if (cs : Int) < 2 * ld then some (ld + (d.length : Int)) else findCut cs chunkText ds

/-- The adjusted end of the window starting at `start`: the boundary cut
when some delimiter qualifies (`end = start + last_delimiter +
len(delimiter)`), else the raw end `start + chunk_size`. -/
def windowEnd (cs : Nat) (text : List Char) (start : Int) : Int :=
  match findCut cs (pySlice text start (start + (cs : Int))) delimiters with
  | some off => start + off
  | none => start + (cs : Int)

/-- One window of the `while start < len(text)` loop of `_split_text`,
recorded as the `(start, end)` pair of the slice appended to `chunks`.
The loop itself is fuel-bounded; `none` means the fuel ran out, i.e. the
loop performed more iterations than the given bound. -/
def splitLoopW (cs ov : Nat) (text : List Char) : Nat → Int → Option (List (Int × Int))
  | 0, _ => none
  | fuel + 1, start =>
    if start < (text.length : Int) then
      if (text.length : Int) ≤ start + (cs : Int) then
        some [(start, (text.length : Int))]
      else
        match splitLoopW cs ov text fuel (windowEnd cs text start - (ov : Int)) with
        | none => none
        | some rest => some ((start, windowEnd cs text start) :: rest)
    else some []

/-- `DocumentProcessor._split_text(text)`: early single-chunk return for
`len(text) <= chunk_size` (note: that branch returns the raw text,
unstripped); otherwise run the window loop, slice each window out of the
text, and apply the final `[chunk.strip() for chunk in chunks if chunk.strip()]`. -/
def split_text (cs ov fuel : Nat) (text : List Char) : Option (List (List Char)) :=
  if text.length ≤ cs then some [text]
  else
    (splitLoopW cs ov text fuel 0).map (fun ws =>
      ((ws.map (fun w => pySlice text w.1 w.2)).map pyStrip).filter (fun c => !c.isEmpty))

/-! ### Vector store: `VectorStore.search`
(`src/rag/vector_store.py`, lines 130-186)

The ChromaDB query itself is an external collaborator; it is modelled by an
abstract list of raw hits `(content, metadata, distance)` that the collection
would return, in the collection's order.  ChromaDB returns at most
`n_results` hits, which the caller models with `List.take`. -/

/-- One raw hit returned by the ChromaDB collection query: document text,
the metadata fields the pipeline reads (`filename`, `modified`), and the
L2 distance. -/
structure Hit where
  content : List Char
  filename : Option (List Char)
  modified : ℚ
  distance : ℚ

/-- The `RetrievedDocument` dataclass of `retriever.py` (the per-hit dict
built by `VectorStore.search` is converted field-for-field into it by
`DocumentRetriever.retrieve`, so the two are identified here). -/
structure RetrievedDocument where
  content : List Char
  filename : Option (List Char)
  modified : ℚ
  similarity : ℚ
  rank : Nat
deriving DecidableEq

/-- The distance-to-similarity transform of `VectorStore.search`:
`similarity = 1.0 / (1.0 + distance)`. -/
def toSimilarity (d : ℚ) : ℚ := 1 / (1 + d)

/-- The result-processing loop of `VectorStore.search`: enumerate the raw
hits, convert distance to similarity, and append hits with
`similarity >= similarity_threshold`, carrying `rank = i + 1` from the
enumeration index over all hits (filtered-out hits still consume an index). -/
def search_hits (threshold : ℚ) : Nat → List Hit → List RetrievedDocument
  | _, [] => []
  | i, h :: hs =>
    let sim := toSimilarity h.distance
    if threshold ≤ sim then
      ⟨h.content, h.filename, h.modified, sim, i + 1⟩ :: search_hits threshold (i + 1) hs
    else
      search_hits threshold (i + 1) hs

/-- `VectorStore.search(query, top_k, similarity_threshold)`, given the raw
collection hits: ChromaDB truncates to `n_results = top_k`, then the result
loop filters and ranks. -/
def search (raw : List Hit) (topK : Nat) (threshold : ℚ) : List RetrievedDocument :=
  search_hits threshold 0 (raw.take topK)

/-! ### Retriever: `DocumentRetriever`
(`src/rag/retriever.py`) -/

/-- `set(query.lower().split())` — the deduplicated lower-cased query
terms.  A Python `set` is only ever counted and membership-tested by the
re-ranker, so a deduplicated list models it faithfully. -/
def queryTerms (query : List Char) : List (List Char) :=
  (pyWords (pyLower query)).dedup

/-- The per-document boost of `_rerank_documents` (lines 225-238):
`term_matches` counts query terms contained in the lower-cased content,
`term_boost = term_matches / len(query_terms)` (0 for an empty term set),
`recency_boost = min(0.1, modified / 1_000_000_000_000)`, and the new
score is `similarity + term_boost * 0.1 + recency_boost`. -/
def boostDoc (query : List Char) (d : RetrievedDocument) : RetrievedDocument :=
  let q := queryTerms query
  let docText := pyLower d.content
  let termMatches : Nat := (q.filter (fun t => containsSub t docText)).length
  let termBoost : ℚ := if q.length = 0 then 0 else (termMatches : ℚ) / (q.length : ℚ)
  let recencyBoost : ℚ := min (1 / 10) (d.modified / 1000000000000)
  { d with similarity := d.similarity + termBoost * (1 / 10) + recencyBoost }

/-- Stable descending insertion: place `a` before the first element whose
similarity is at most `a`'s, passing over strictly greater ones.  This is
the unique stable descending order, hence the model of CPython's stable
`list.sort(key=..., reverse=True)`. -/
def insertDesc (a : RetrievedDocument) : List RetrievedDocument → List RetrievedDocument
  | [] => [a]
  | b :: l => if b.similarity ≤ a.similarity then a :: b :: l else b :: insertDesc a l

/-- Stable descending sort by similarity (`documents.sort(key=lambda x:
x.similarity, reverse=True)`). -/
def sortDesc : List RetrievedDocument → List RetrievedDocument
  | [] => []
  | a :: l => insertDesc a (sortDesc l)

/-- The rank-reassignment loop `for i, doc in enumerate(documents):
doc.rank = i + 1`, starting from `n = i + 1`. -/
def setRanksFrom (n : Nat) : List RetrievedDocument → List RetrievedDocument
  | [] => []
  | d :: l => { d with rank := n } :: setRanksFrom (n + 1) l

/-- `DocumentRetriever._rerank_documents(query, documents)` (lines 206-252):
boost every document's similarity in place, stable-sort descending by the
new similarity, reassign ranks `1..N`.  The body cannot raise, so the
`except` branch is dead. -/
def rerank_documents (query : List Char) (documents : List RetrievedDocument) :
    List RetrievedDocument :=
  setRanksFrom 1 (sortDesc (documents.map (boostDoc query)))

/-- `DocumentRetriever.retrieve(query, top_k, similarity_threshold)`
(lines 49-100): over-fetch `top_k * 2` from the store, return `[]` for an
empty result, re-rank when enabled and more than one candidate remains,
truncate to `top_k`. -/
def retrieve (raw : List Hit) (query : List Char) (topK : Nat) (threshold : ℚ)
    (rerank : Bool) : List RetrievedDocument :=
  let searchResults := search raw (topK * 2) threshold
  if searchResults.isEmpty then []
  else
    let docs :=
      if rerank && decide (1 < searchResults.length) then
        rerank_documents query searchResults
      else searchResults
    docs.take topK

/-- Modelled from the spec: the error taxonomy of spec §6 (`NotFound`,
`UnsupportedFormat`, `DimensionMismatch`, `EmbeddingFailure`,
`StorageFailure`, `ValidationError`).  No such exception types exist in
the source; the inductive gives the claimed `ValidationError` a type so
that "raises" is expressible. -/
inductive RagError where
  | notFound
  | unsupportedFormat
  | dimensionMismatch
  | embeddingFailure
  | storageFailure
  | validationError
deriving DecidableEq

/-- `DocumentRetriever.retrieve` as seen by its caller, with the raising
behaviour explicit: the whole body sits in `try: ... except Exception:
return []` (lines 64-100) and contains no `raise` statement and no input
validation, so every call returns normally. -/
def retrieve_exc (raw : List Hit) (query : List Char) (topK : Nat) (threshold : ℚ)
    (rerank : Bool) : Except RagError (List RetrievedDocument) :=
  Except.ok (retrieve raw query topK threshold rerank)

/-- Whether a call outcome is a raised `ValidationError`. -/
def raisesValidation (r : Except RagError (List RetrievedDocument)) : Bool :=
  match r with
  | Except.error RagError.validationError => true
  | _ => false

/-! ### Context assembly: `DocumentRetriever.get_document_context`
(lines 162-204) -/

/-- The block built for document `i`:
`f"[Source: {source}]\n{content}\n"` with
`source = metadata.get('filename', f'Document {i+1}')`. -/
def docBlock (i : Nat) (d : RetrievedDocument) : List Char :=
  let source := d.filename.getD ("Document ".data ++ (Nat.toDigits 10 (i + 1)))
  "[Source: ".data ++ source ++ "]\n".data ++ d.content ++ "\n".data

/-- The accumulation loop of `get_document_context`: append whole blocks
while they fit the `max_chars` budget; on the first overflow append a
truncated block suffixed `"..."` when more than 100 characters of budget
remain, then stop. -/
def buildParts (maxChars : Int) : Nat → Nat → List RetrievedDocument → List (List Char)
  | _, _, [] => []
  | i, total, d :: rest =>
    let t := docBlock i d
    if maxChars < (total : Int) + (t.length : Int) then
      let remaining : Int := maxChars - (total : Int)
      if 100 < remaining then [t.take remaining.toNat ++ "...".data] else []
    else
      t :: buildParts maxChars (i + 1) (total + t.length) rest

/-- Python `sep.join(parts)`. -/
def joinSep (sep : List Char) : List (List Char) → List Char
  | [] => []
  | [a] => a
  | a :: b :: rest => a ++ sep ++ joinSep sep (b :: rest)

/-- `DocumentRetriever.get_document_context(query, max_chars)`: retrieve
with the instance defaults, return `""` when nothing was retrieved, else
join the accumulated blocks with `"\n---\n"`. -/
def get_document_context (raw : List Hit) (query : List Char) (topK : Nat)
    (threshold : ℚ) (rerank : Bool) (maxChars : Int) : List Char :=
  let docs := retrieve raw query topK threshold rerank
  if docs.isEmpty then []
  else joinSep ("\n---\n".data) (buildParts maxChars 0 0 docs)

/-! ### Spec-side definition for claim C8 -/

/-- Modelled from the spec's words for the boundary rule (C8): the last
occurrence among all four markers, together with that marker's length. -/
def specLastMarker (chunkText : List Char) : Option (Int × Nat) :=
  delimiters.foldl
    (fun acc d =>
      let p := rfindSub d chunkText
      if p < 0 then acc
      else
        match acc with
        | none => some (p, d.length)
        | some q => if q.1 < p then some (p, d.length) else acc)
    none

/-- Modelled from the spec's words for the boundary rule (C8): cut
immediately after the last marker occurrence among all markers, provided
that occurrence lies at offset `≥ chunkSize * 0.5` (i.e. `2*p ≥ cs`). -/
def specCutOff (cs : Nat) (chunkText : List Char) : Option Int :=
  match specLastMarker chunkText with
  | some p => if (cs : Int) ≤ 2 * p.1 then some (p.1 + (p.2 : Int)) else none
  | none => none

/-! ## Claim C3: behaviour of `_split_text` on short inputs -/

/-- Claim C3 fails on the code: for `len(text) <= chunk_size` the function
returns `[text]` before the strip-and-drop comprehension runs, so the
single chunk is not trimmed, and a whitespace-only text yields that
whitespace chunk instead of no chunks. -/
theorem split_small_not_trimmed_cex :
    split_text 5 0 0 (" hi ".data) = some [(" hi ").data] ∧
    (" hi ").data ≠ pyStrip ((" hi ").data) ∧
    split_text 5 0 0 (" ".data) = some [(" ").data] ∧
    split_text 5 0 0 (" ".data) ≠ some [] := by
  refine ⟨by decide, by decide, by decide, by decide⟩

/-- Claim C3 amended: for every text with `len(text) <= chunk_size`,
`_split_text` returns exactly one chunk equal to the text as-is, with no
trimming and no dropping of whitespace-only input. -/
theorem split_small_single_raw_chunk (cs ov fuel : Nat) (T : List Char)
    (h : T.length ≤ cs) : split_text cs ov fuel T = some [T] := by
  simp [split_text, h]

/-- Witness for `split_small_single_raw_chunk` at `T = " hi "`, `cs = 5`. -/
theorem split_small_single_raw_chunk_witness :
    (" hi ".data.length ≤ 5) ∧ split_text 5 3 7 (" hi ".data) = some [(" hi ").data] :=
  ⟨by decide, split_small_single_raw_chunk 5 3 7 (" hi ".data) (by decide)⟩

/-! ## Claim C4: termination of `_split_text` -/

/-- On `text = "abcdef. ghij"`, `chunk_size = 10`, `overlap = 8`, the
window loop re-enters with `start` unchanged: the window `"abcdef. gh"`
is cut at the `". "` boundary giving `end = 8`, and
`start = end - overlap = 0` again.  No amount of fuel completes it. -/
lemma splitLoopW_stuck (fuel : Nat) :
    splitLoopW 10 8 ("abcdef. ghij".data) fuel 0 = none := by
  induction fuel with
  | zero => rfl
  | succ f ih =>
    rw [splitLoopW]
    rw [if_pos (by decide : (0 : Int) < (("abcdef. ghij".data).length : Int))]
    rw [if_neg (by decide : ¬ ((("abcdef. ghij".data).length : Int) ≤ 0 + ((10 : Nat) : Int)))]
    have hw : windowEnd 10 ("abcdef. ghij".data) 0 = 8 := by decide
    rw [hw]
    have h8 : (8 : Int) - ((8 : Nat) : Int) = 0 := by decide
    rw [h8, ih]

/-- Claim C4 fails on the code: `_split_text` does not terminate for every
`0 ≤ overlap < chunkSize`.  With `chunk_size = 10`, `overlap = 8` and
text `"abcdef. ghij"` the loop never finishes (modelled: the fuel-bounded
loop returns `none` for every fuel). -/
theorem split_text_nonterminating (fuel : Nat) :
    split_text 10 8 fuel ("abcdef. ghij".data) = none := by
  have h : ¬ (("abcdef. ghij".data).length ≤ 10) := by decide
  unfold split_text
  rw [if_neg h, splitLoopW_stuck]
  rfl

/-! ## Claim C7: consecutive windows overlap by exactly `overlap` -/

/-- Every completed run of the window loop yields windows whose heads
start where the loop said: the first window starts at `start`, and each
later window starts exactly `overlap` before the previous window's end. -/
lemma splitLoopW_chain (cs ov : Nat) (text : List Char) :
    ∀ fuel (start : Int) ws, splitLoopW cs ov text fuel start = some ws →
      (∀ w ∈ ws.head?, w.1 = start) ∧
      List.Chain' (fun a b => b.1 = a.2 - (ov : Int)) ws := by
  intro fuel
  induction fuel with
  | zero => intro start ws h; simp [splitLoopW] at h
  | succ f ih =>
    intro start ws h
    rw [splitLoopW] at h
    by_cases h1 : start < (text.length : Int)
    · rw [if_pos h1] at h
      by_cases h2 : (text.length : Int) ≤ start + (cs : Int)
      · rw [if_pos h2] at h
        obtain rfl : [(start, (text.length : Int))] = ws := by injection h
        refine ⟨by simp, by simp⟩
      · rw [if_neg h2] at h
        cases hrec : splitLoopW cs ov text f (windowEnd cs text start - (ov : Int)) with
        | none => rw [hrec] at h; exact absurd h (by simp)
        | some rest =>
          rw [hrec] at h
          obtain rfl : ((start, windowEnd cs text start) :: rest) = ws := by injection h
          obtain ⟨hhead, hchain⟩ := ih _ rest hrec
          refine ⟨by simp, ?_⟩
          rw [List.chain'_cons']
          refine ⟨fun b hb => ?_, hchain⟩
          have := hhead b hb
          omega
    · rw [if_neg h1] at h
      obtain rfl : ([] : List (Int × Int)) = ws := by injection h
      refine ⟨by simp, by simp⟩

/-- Claim C7 confirmed (at the level of the raw source windows, which is what
the claim's "that is" clause states): whenever the window loop of
`_split_text` completes on a text longer than `chunk_size`, every window
after the first starts exactly `overlap` characters before the previous
window's end. -/
theorem split_windows_overlap (cs ov fuel : Nat) (text : List Char)
    (ws : List (Int × Int)) (_hlong : cs < text.length)
    (hrun : splitLoopW cs ov text fuel 0 = some ws) :
    List.Chain' (fun a b => b.1 = a.2 - (ov : Int)) ws :=
  (splitLoopW_chain cs ov text fuel 0 ws hrun).2

/-- Witness for `split_windows_overlap` on `"abcdefgh"`, `chunk_size = 5`,
`overlap = 2`: the run completes with windows `(0,5), (3,8)` and
`3 = 5 - 2`. -/
theorem split_windows_overlap_witness :
    (5 < ("abcdefgh".data).length ∧
      splitLoopW 5 2 ("abcdefgh".data) 5 0 = some [(0, 5), (3, 8)]) ∧
    List.Chain' (fun a b => b.1 = a.2 - ((2 : Nat) : Int)) [((0 : Int), (5 : Int)), (3, 8)] :=
  ⟨⟨by decide, by decide⟩,
    split_windows_overlap 5 2 5 ("abcdefgh".data) [(0, 5), (3, 8)] (by decide) (by decide)⟩

/-! ## Claim C8: boundary-marker cut rule -/

/-- Claim C8 fails on the code: on the window `"abcdef. .\n"` with
`chunk_size = 10`, the last marker occurrence over all markers is `".\n"`
at offset 8, so the claim cuts at 10; the code checks markers in a fixed
order and `". "` at offset 6 qualifies first, so it cuts at 8.  On the
full text `"abcdef. .\nXYZ"` this produces chunks `["abcdef.", ".\nXYZ"]`
instead of a first chunk ending after the `".\n"`. -/
theorem boundary_cut_cex :
    findCut 10 ("abcdef. .\n".data) delimiters = some 8 ∧
    specCutOff 10 ("abcdef. .\n".data) = some 10 ∧
    split_text 10 0 5 ("abcdef. .\nXYZ".data) =
      some [("abcdef.").data, (".\nXYZ").data] := by
  refine ⟨by decide, by decide, by decide⟩

/-- Claim C8 amended: the window is cut at the last occurrence of the first
marker, in the fixed order `". "`, `".\n"`, `"!\n"`, `"?\n"`, whose last
occurrence lies at an offset strictly greater than `chunkSize * 0.5`;
markers later in the order are not consulted once one qualifies, and a
marker at offset exactly `chunkSize * 0.5` does not qualify. -/
theorem boundary_cut_first_qualifying (cs : Nat) (w : List Char) :
    findCut cs w delimiters =
      (if (cs : Int) < 2 * rfindSub ['.', ' '] w then some (rfindSub ['.', ' '] w + 2)
       else if (cs : Int) < 2 * rfindSub ['.', '\n'] w then some (rfindSub ['.', '\n'] w + 2)
       else if (cs : Int) < 2 * rfindSub ['!', '\n'] w then some (rfindSub ['!', '\n'] w + 2)
       else if (cs : Int) < 2 * rfindSub ['?', '\n'] w then some (rfindSub ['?', '\n'] w + 2)
       else none) := by
  rfl

/-! ## Claim C10: validation errors from `retrieve` -/

/-- Claim C10 fails on the code: `retrieve` performs no input validation and
its whole body is wrapped in `try/except` returning `[]`, so a call with
an empty query and `top_k = 0` raises nothing and returns the empty
list. -/
theorem retrieve_validation_cex :
    raisesValidation (retrieve_exc [] ("".data) 0 (7 / 10) true) = false ∧
    retrieve_exc [] ("".data) 0 (7 / 10) true = Except.ok [] := by
  exact ⟨rfl, rfl⟩

/-- Claim C10 amended: `retrieve` never raises — for every input, including an
empty query or `topK = 0`, the call returns normally; with `topK = 0` the
result is the empty list (all exceptions inside the body are caught and
converted to `[]`, and no `ValidationError` type exists in the code). -/
theorem retrieve_never_raises (raw : List Hit) (q : List Char) (topK : Nat)
    (thr : ℚ) (rr : Bool) :
    retrieve_exc raw q topK thr rr = Except.ok (retrieve raw q topK thr rr) ∧
    retrieve_exc raw q 0 thr rr = Except.ok [] := by
  refine ⟨rfl, ?_⟩
  have h0 : retrieve raw q 0 thr rr = [] := by
    simp [retrieve, search, search_hits]
  rw [retrieve_exc, h0]

/-! ## Claim C2: context assembly character budget -/

/-- The raw collection hits used by the C2 counterexample: two documents
whose context blocks are exactly 20 characters each. -/
def rawContextCex : List Hit :=
  [⟨"0123456".data, some ("a".data), 0, 0⟩, ⟨"0123456".data, some ("b".data), 0, 0⟩]

lemma retrieve_rawContextCex :
    retrieve rawContextCex ("q".data) 5 (1 / 2) false =
      [⟨"0123456".data, some ("a".data), 0, 1, 1⟩,
       ⟨"0123456".data, some ("b".data), 0, 1, 2⟩] := by
  norm_num [retrieve, search, search_hits, toSimilarity, rawContextCex, List.take]

/-- Claim C2 fails on the code: the `"\n---\n"` separators inserted by the
final join are not counted against `max_chars`.  Two 20-character blocks
fit a budget of 40 exactly, and the joined context has 45 characters. -/
theorem context_budget_cex :
    ¬ ((get_document_context rawContextCex ("q".data) 5 (1 / 2) false 40).length ≤ 40) := by
  unfold get_document_context
  rw [retrieve_rawContextCex]
  decide

lemma joinSep_length (sep : List Char) (l : List (List Char)) :
    (joinSep sep l).length = (l.map List.length).sum + sep.length * (l.length - 1) := by
  induction l with
  | nil => simp [joinSep]
  | cons a t ih =>
    cases t with
    | nil => simp [joinSep]
    | cons b r =>
      simp only [joinSep, List.length_append, ih, List.map_cons, List.sum_cons,
        List.length_cons, Nat.add_sub_cancel]
      ring

lemma buildParts_sum (docs : List RetrievedDocument) :
    ∀ (maxChars : Int) (i total : Nat),
      ((buildParts maxChars i total docs).map List.length).sum ≤
        (maxChars - (total : Int)).toNat + 3 := by
  induction docs with
  | nil => intro maxChars i total; simp [buildParts]
  | cons d rest ih =>
    intro maxChars i total
    rw [buildParts]
    by_cases h1 : maxChars < (total : Int) + ((docBlock i d).length : Int)
    · rw [if_pos h1]
      by_cases h2 : (100 : Int) < maxChars - (total : Int)
      · rw [if_pos h2]
        simp only [List.map_cons, List.map_nil, List.sum_cons, List.sum_nil,
          List.length_append]
        have ht : ((docBlock i d).take (maxChars - (total : Int)).toNat).length ≤
            (maxChars - (total : Int)).toNat := List.length_take_le _ _
        have h3 : (['.', '.', '.'] : List Char).length = 3 := rfl
        omega
      · rw [if_neg h2]; simp
    · rw [if_neg h1]
      simp only [List.map_cons, List.sum_cons]
      have := ih maxChars (i + 1) (total + (docBlock i d).length)
      omega

/-- Claim C2 amended: the budget check of `get_document_context` counts only
the block texts, not the `"\n---\n"` separators added by the final join,
and the truncated block may exceed the remaining budget by the 3
characters of the ellipsis; hence the output length is bounded by
`max(maxChars, 0) + 3` plus 5 characters per separator between
consecutive blocks, not by `maxChars` itself. -/
theorem context_length_bound (raw : List Hit) (q : List Char) (topK : Nat)
    (thr : ℚ) (rr : Bool) (maxChars : Int) :
    (get_document_context raw q topK thr rr maxChars).length ≤
      maxChars.toNat + 3 +
        5 * ((buildParts maxChars 0 0 (retrieve raw q topK thr rr)).length - 1) := by
  unfold get_document_context
  by_cases hd : (retrieve raw q topK thr rr).isEmpty
  · rw [if_pos hd]
    simp
  · rw [if_neg hd]
    rw [joinSep_length]
    have hsum := buildParts_sum (retrieve raw q topK thr rr) maxChars 0 0
    have hsep : (("\n---\n".data).length) = 5 := by decide
    rw [hsep]
    omega

/-! ## Supporting lemmas about the retrieval pipeline -/

lemma search_hits_mem (thr : ℚ) :
    ∀ (i : Nat) (hits : List Hit) (r : RetrievedDocument), r ∈ search_hits thr i hits →
      thr ≤ r.similarity ∧
      ∃ h ∈ hits, r.similarity = toSimilarity h.distance ∧ r.modified = h.modified := by
  intro i hits
  induction hits generalizing i with
  | nil => intro r hr; simp [search_hits] at hr
  | cons h hs ih =>
    intro r hr
    simp only [search_hits] at hr
    split at hr
    · rcases List.mem_cons.mp hr with he | hm
      · subst he
        exact ⟨by assumption, h, List.mem_cons_self _ _, rfl, rfl⟩
      · obtain ⟨hthr, h', hh', e1, e2⟩ := ih (i + 1) r hm
        exact ⟨hthr, h', List.mem_cons_of_mem _ hh', e1, e2⟩
    · obtain ⟨hthr, h', hh', e1, e2⟩ := ih (i + 1) r hr
      exact ⟨hthr, h', List.mem_cons_of_mem _ hh', e1, e2⟩

lemma boostDoc_modified (q : List Char) (d : RetrievedDocument) :
    (boostDoc q d).modified = d.modified := rfl

/-- The term-frequency boost factor is non-negative. -/
lemma termBoost_nonneg (q c : List Char) :
    (0 : ℚ) ≤
      (if (queryTerms q).length = 0 then (0 : ℚ)
       else ((((queryTerms q).filter (fun t => containsSub t c)).length : ℚ) /
         ((queryTerms q).length : ℚ))) := by
  split
  · exact le_rfl
  · exact div_nonneg (Nat.cast_nonneg _) (Nat.cast_nonneg _)

/-- The term-frequency boost factor never exceeds 1 (a document can match
at most all distinct query terms). -/
lemma termBoost_le_one (q c : List Char) :
    (if (queryTerms q).length = 0 then (0 : ℚ)
     else ((((queryTerms q).filter (fun t => containsSub t c)).length : ℚ) /
       ((queryTerms q).length : ℚ))) ≤ 1 := by
  split
  · norm_num
  · rename_i hq
    have hpos : (0 : ℚ) < ((queryTerms q).length : ℚ) := by
      have h0 : 0 < (queryTerms q).length := Nat.pos_of_ne_zero hq
      exact_mod_cast h0
    rw [div_le_one hpos]
    exact_mod_cast List.length_filter_le _ _

lemma boostDoc_sim_ge (q : List Char) (d : RetrievedDocument) (hm : 0 ≤ d.modified) :
    d.similarity ≤ (boostDoc q d).similarity := by
  unfold boostDoc
  simp only
  have htb := termBoost_nonneg q (pyLower d.content)
  have hrb : (0 : ℚ) ≤ min (1 / 10) (d.modified / 1000000000000) :=
    le_min (by norm_num) (div_nonneg hm (by norm_num))
  nlinarith [mul_nonneg htb (show (0 : ℚ) ≤ 1 / 10 by norm_num)]

lemma boostDoc_sim_le (q : List Char) (d : RetrievedDocument) :
    (boostDoc q d).similarity ≤ d.similarity + 1 / 5 := by
  unfold boostDoc
  simp only
  have htb := termBoost_le_one q (pyLower d.content)
  have hrb : min (1 / 10) (d.modified / 1000000000000) ≤ 1 / 10 := min_le_left _ _
  nlinarith [mul_le_mul_of_nonneg_right htb (show (0 : ℚ) ≤ 1 / 10 by norm_num)]

lemma insertDesc_perm (a : RetrievedDocument) (l : List RetrievedDocument) :
    (insertDesc a l).Perm (a :: l) := by
  induction l with
  | nil => exact List.Perm.refl _
  | cons b t ih =>
    rw [insertDesc]
    split
    · exact List.Perm.refl _
    · exact (List.Perm.cons b ih).trans (List.Perm.swap a b t)

lemma sortDesc_perm (l : List RetrievedDocument) : (sortDesc l).Perm l := by
  induction l with
  | nil => exact List.Perm.refl _
  | cons a t ih => exact (insertDesc_perm a (sortDesc t)).trans (List.Perm.cons a ih)

lemma setRanksFrom_mem :
    ∀ (n : Nat) (l : List RetrievedDocument) (x : RetrievedDocument),
      x ∈ setRanksFrom n l →
      ∃ d ∈ l, x.similarity = d.similarity ∧ x.modified = d.modified := by
  intro n l
  induction l generalizing n with
  | nil => intro x hx; simp [setRanksFrom] at hx
  | cons d t ih =>
    intro x hx
    rw [setRanksFrom] at hx
    rcases List.mem_cons.mp hx with he | hm
    · subst he; exact ⟨d, List.mem_cons_self _ _, rfl, rfl⟩
    · obtain ⟨d', hd', e1, e2⟩ := ih (n + 1) x hm
      exact ⟨d', List.mem_cons_of_mem _ hd', e1, e2⟩

lemma setRanksFrom_length :
    ∀ (n : Nat) (l : List RetrievedDocument), (setRanksFrom n l).length = l.length := by
  intro n l
  induction l generalizing n with
  | nil => rfl
  | cons d t ih => simp [setRanksFrom, ih]

/-- Anatomy of every document returned by `retrieve`: it descends from a
raw hit that passed the similarity threshold, and its final similarity is
the hit's transformed distance plus a re-ranking boost `b` with
`b ≤ 1/5`, and `0 ≤ b` whenever the hit's modification time is
non-negative (the boost is `0` when re-ranking did not run). -/
lemma retrieve_mem_spec (raw : List Hit) (q : List Char) (topK : Nat) (thr : ℚ)
    (rr : Bool) (r : RetrievedDocument) (hr : r ∈ retrieve raw q topK thr rr) :
    ∃ h ∈ raw, ∃ b : ℚ, r.similarity = toSimilarity h.distance + b ∧
      thr ≤ toSimilarity h.distance ∧ b ≤ 1 / 5 ∧ (0 ≤ h.modified → 0 ≤ b) := by
  simp only [retrieve] at hr
  split at hr
  · simp at hr
  · have hr' := List.take_subset _ _ hr
    split at hr'
    · -- re-ranking ran
      obtain ⟨d, hd, es, em⟩ := setRanksFrom_mem _ _ _ hr'
      have hd' := (sortDesc_perm _).mem_iff.mp hd
      obtain ⟨d₀, hd₀, hb⟩ := List.mem_map.mp hd'
      obtain ⟨hthr, h, hh, e1, e2⟩ := search_hits_mem thr 0 _ d₀ hd₀
      refine ⟨h, List.take_subset _ _ hh, (boostDoc q d₀).similarity - d₀.similarity,
        ?_, e1 ▸ hthr, ?_, ?_⟩
      · rw [es, ← hb, ← e1]; ring
      · have := boostDoc_sim_le q d₀; linarith
      · intro hmpos
        have : 0 ≤ d₀.modified := e2 ▸ hmpos
        have := boostDoc_sim_ge q d₀ this
        linarith
    · -- re-ranking skipped
      obtain ⟨hthr, h, hh, e1, e2⟩ := search_hits_mem thr 0 _ r hr'
      exact ⟨h, List.take_subset _ _ hh, 0, by rw [e1]; ring, e1 ▸ hthr, by norm_num,
        fun _ => le_rfl⟩

/-! ## Claim C1: `retrieve` respects `topK` and the similarity threshold -/

/-- Claim C1 confirmed: for every query, every `topK > 0` and every threshold,
`retrieve` returns at most `topK` documents and every returned document
has similarity at least the threshold.  (The hypothesis that the stored
modification times are non-negative reflects that they are filesystem
`st_mtime` values; a negative timestamp could make the recency "boost"
negative and push a retained document below the threshold.) -/
theorem retrieve_topk_threshold (raw : List Hit) (q : List Char) (topK : Nat)
    (thr : ℚ) (rr : Bool) (_hk : 0 < topK) (hm : ∀ h ∈ raw, 0 ≤ h.modified) :
    (retrieve raw q topK thr rr).length ≤ topK ∧
    ∀ r ∈ retrieve raw q topK thr rr, thr ≤ r.similarity := by
  constructor
  · simp only [retrieve]
    split
    · simp
    · exact List.length_take_le _ _
  · intro r hr
    obtain ⟨h, hh, b, e, ht, _, hb⟩ := retrieve_mem_spec raw q topK thr rr r hr
    have h0 := hb (hm h hh)
    rw [e]
    linarith

/-- The single-hit collection used by the C1 and C5 witnesses. -/
def rawSingleHit : List Hit := [⟨"x".data, some ("a".data), 0, 0⟩]

lemma rawSingleHit_modified_nonneg : ∀ h ∈ rawSingleHit, 0 ≤ h.modified := by
  intro h hh
  rw [rawSingleHit, List.mem_singleton] at hh
  subst hh
  norm_num

/-- Witness for `retrieve_topk_threshold` at one concrete store and call. -/
theorem retrieve_topk_threshold_witness :
    (0 < 1 ∧ ∀ h ∈ rawSingleHit, 0 ≤ h.modified) ∧
    ((retrieve rawSingleHit ("x".data) 1 (1 / 2) true).length ≤ 1 ∧
      ∀ r ∈ retrieve rawSingleHit ("x".data) 1 (1 / 2) true, (1 / 2 : ℚ) ≤ r.similarity) :=
  ⟨⟨Nat.one_pos, rawSingleHit_modified_nonneg⟩,
    retrieve_topk_threshold rawSingleHit ("x".data) 1 (1 / 2) true Nat.one_pos
      rawSingleHit_modified_nonneg⟩

/-! ## Claim C5: the similarity transform and the range of returned scores -/

/-- The two-identical-documents collection with distance 0: re-ranking
boosts both scores above 1. -/
def rawBoostCex : List Hit :=
  [⟨"python".data, some ("a".data), 0, 0⟩, ⟨"python".data, some ("b".data), 0, 0⟩]

lemma retrieve_rawBoostCex :
    (retrieve rawBoostCex ("python".data) 2 (1 / 2) true).map
        (fun d => d.similarity) = [11 / 10, 11 / 10] := by
  have hq : queryTerms ['p', 'y', 't', 'h', 'o', 'n'] = [['p', 'y', 't', 'h', 'o', 'n']] := by
    decide
  have hc : containsSub ['p', 'y', 't', 'h', 'o', 'n']
      (pyLower ['p', 'y', 't', 'h', 'o', 'n']) = true := by decide
  have e : ("python".data) = ['p', 'y', 't', 'h', 'o', 'n'] := rfl
  have ea : ("a".data) = ['a'] := rfl
  have eb : ("b".data) = ['b'] := rfl
  have htake : rawBoostCex.take 4 = rawBoostCex :=
    List.take_of_length_le (by norm_num [rawBoostCex])
  norm_num [e, ea, eb, retrieve, search, htake, search_hits, toSimilarity, rawBoostCex,
    rerank_documents, boostDoc, hq, hc, sortDesc, insertDesc, setRanksFrom,
    min_def, List.take]

/-- Claim C5 fails on the code in its range part: after re-ranking boosts, a
returned similarity can exceed 1 (here both returned documents carry
similarity 11/10). -/
theorem similarity_above_one_cex :
    (retrieve rawBoostCex ("python".data) 2 (1 / 2) true).map
        (fun d => d.similarity) = [11 / 10, 11 / 10] ∧
    ¬ ((11 / 10 : ℚ) ≤ 1) := by
  exact ⟨retrieve_rawBoostCex, by norm_num⟩

/-- Claim C5 amended: the transform itself is `1/(1+d)`, maps `0` to `1` and is
strictly decreasing on non-negative distances; returned similarities are
strictly positive, but re-ranking boosts (term boost ≤ 0.1 plus recency
boost ≤ 0.1) can push them above 1 — the sharp bound is `(0, 1 + 1/5]`,
not `(0, 1]`. -/
theorem similarity_transform_range :
    toSimilarity 0 = 1 ∧
    (∀ d₁ d₂ : ℚ, 0 ≤ d₁ → d₁ < d₂ → toSimilarity d₂ < toSimilarity d₁) ∧
    (∀ (raw : List Hit) (q : List Char) (topK : Nat) (thr : ℚ) (rr : Bool),
      (∀ h ∈ raw, 0 ≤ h.distance ∧ 0 ≤ h.modified) →
      ∀ r ∈ retrieve raw q topK thr rr,
        0 < r.similarity ∧ r.similarity ≤ 1 + 1 / 5) := by
  refine ⟨by norm_num [toSimilarity], ?_, ?_⟩
  · intro d₁ d₂ h0 hlt
    unfold toSimilarity
    apply one_div_lt_one_div_of_lt <;> linarith
  · intro raw q topK thr rr hraw r hr
    obtain ⟨h, hh, b, e, _, hb5, hb0⟩ := retrieve_mem_spec raw q topK thr rr r hr
    obtain ⟨hd, hm⟩ := hraw h hh
    have hb := hb0 hm
    have hbase_pos : 0 < toSimilarity h.distance := by
      unfold toSimilarity
      positivity
    have hbase_le : toSimilarity h.distance ≤ 1 := by
      unfold toSimilarity
      rw [div_le_one (by linarith)]
      linarith
    constructor
    · rw [e]; linarith
    · rw [e]; linarith

/-- Witness for `similarity_transform_range`: the strict-decrease part at
`d₁ = 0, d₂ = 1` and the range part at the single-hit store. -/
theorem similarity_transform_range_witness :
    ((0 : ℚ) ≤ 0 ∧ (0 : ℚ) < 1 ∧ toSimilarity 1 < toSimilarity 0) ∧
    ((∀ h ∈ rawSingleHit, 0 ≤ h.distance ∧ 0 ≤ h.modified) ∧
      ∀ r ∈ retrieve rawSingleHit ("x".data) 1 (1 / 2) true,
        0 < r.similarity ∧ r.similarity ≤ 1 + 1 / 5) := by
  have hraw : ∀ h ∈ rawSingleHit, (0 : ℚ) ≤ h.distance ∧ (0 : ℚ) ≤ h.modified := by
    intro h hh
    rw [rawSingleHit, List.mem_singleton] at hh
    subst hh
    norm_num
  exact ⟨⟨le_rfl, one_pos, similarity_transform_range.2.1 0 1 le_rfl one_pos⟩,
    ⟨hraw, similarity_transform_range.2.2 rawSingleHit ("x".data) 1 (1 / 2) true hraw⟩⟩

/-! ## Claim C6: rank values in the returned order -/

lemma setRanksFrom_take_map_rank :
    ∀ (l : List RetrievedDocument) (n k : Nat),
      ((setRanksFrom n l).take k).map (fun d => d.rank) =
        List.range' n (min l.length k) := by
  intro l
  induction l with
  | nil => intro n k; simp [setRanksFrom]
  | cons d t ih =>
    intro n k
    cases k with
    | zero => simp [setRanksFrom]
    | succ k' =>
      rw [setRanksFrom]
      simp only [List.take_succ_cons, List.map_cons, ih, List.length_cons,
        Nat.succ_min_succ, List.range'_succ]

/-- The two-hit collection where the first hit misses the threshold: the
single returned document keeps the pre-filter rank 2. -/
def rawRankCex : List Hit :=
  [⟨"x".data, some ("a".data), 0, 3⟩, ⟨"y".data, some ("b".data), 0, 0⟩]

lemma retrieve_rawRankCex :
    retrieve rawRankCex ("q".data) 5 (1 / 2) true =
      [⟨"y".data, some ("b".data), 0, 1, 2⟩] := by
  have htake : rawRankCex.take 10 = rawRankCex :=
    List.take_of_length_le (by norm_num [rawRankCex])
  norm_num [retrieve, search, htake, search_hits, toSimilarity, rawRankCex, List.take]

/-- Claim C6 fails on the code: when re-ranking does not run (here only one
candidate passes the threshold), ranks are the 1-based positions in the
raw vector-store result list before threshold filtering, so the single
returned document has rank 2, not rank 1. -/
theorem rank_sequence_cex :
    (retrieve rawRankCex ("q".data) 5 (1 / 2) true).map (fun d => d.rank) = [2] ∧
    (retrieve rawRankCex ("q".data) 5 (1 / 2) true).map (fun d => d.rank) ≠
      List.range' 1 (retrieve rawRankCex ("q".data) 5 (1 / 2) true).length := by
  rw [retrieve_rawRankCex]
  exact ⟨rfl, by decide⟩

/-- Claim C6 amended: the ranks are `1..N` in output order exactly when the
re-ranker runs, i.e. re-ranking is enabled and more than one candidate
passes the threshold; otherwise each document keeps its 1-based position
in the vector-store result list before threshold filtering, which can
skip values. -/
theorem rank_sequence_when_reranked (raw : List Hit) (q : List Char) (topK : Nat)
    (thr : ℚ) (h2 : 1 < (search raw (topK * 2) thr).length) :
    (retrieve raw q topK thr true).map (fun d => d.rank) =
      List.range' 1 (retrieve raw q topK thr true).length := by
  have hne : ¬ ((search raw (topK * 2) thr).isEmpty = true) := by
    intro hab
    rw [List.isEmpty_iff] at hab
    rw [hab] at h2
    simp at h2
  simp only [retrieve]
  rw [if_neg hne]
  have hcond : (true && decide (1 < (search raw (topK * 2) thr).length)) = true := by
    simp [h2]
  rw [if_pos hcond]
  unfold rerank_documents
  rw [setRanksFrom_take_map_rank]
  rw [List.length_take, setRanksFrom_length]
  congr 1
  rw [(sortDesc_perm _).length_eq, List.length_map, Nat.min_comm]

/-- The two-hit collection for the C6 witness: both hits pass the
threshold, so the re-ranker runs. -/
def rawTwoHits : List Hit :=
  [⟨"x".data, some ("a".data), 0, 0⟩, ⟨"y".data, some ("b".data), 0, 0⟩]

lemma search_rawTwoHits_length : 1 < (search rawTwoHits (1 * 2) (1 / 2)).length := by
  have htake : rawTwoHits.take 2 = rawTwoHits :=
    List.take_of_length_le (by norm_num [rawTwoHits])
  norm_num [search, htake, search_hits, toSimilarity, rawTwoHits]

/-- Witness for `rank_sequence_when_reranked` at a concrete two-document
store with `topK = 1`. -/
theorem rank_sequence_when_reranked_witness :
    (1 < (search rawTwoHits (1 * 2) (1 / 2)).length) ∧
    (retrieve rawTwoHits ("q".data) 1 (1 / 2) true).map (fun d => d.rank) =
      List.range' 1 (retrieve rawTwoHits ("q".data) 1 (1 / 2) true).length :=
  ⟨search_rawTwoHits_length,
    rank_sequence_when_reranked rawTwoHits ("q".data) 1 (1 / 2) search_rawTwoHits_length⟩

/-! ## Claim C9: determinism and stability of the re-ranker -/

lemma insertDesc_pairwise (a : RetrievedDocument) (l : List RetrievedDocument)
    (hl : l.Pairwise (fun x y => y.similarity ≤ x.similarity)) :
    (insertDesc a l).Pairwise (fun x y => y.similarity ≤ x.similarity) := by
  induction l with
  | nil => simp [insertDesc]
  | cons b t ih =>
    rw [insertDesc]
    rcases List.pairwise_cons.mp hl with ⟨hb, ht⟩
    split
    · rename_i hba
      rw [List.pairwise_cons]
      refine ⟨?_, hl⟩
      intro y hy
      rcases List.mem_cons.mp hy with rfl | hyt
      · exact hba
      · exact le_trans (hb y hyt) hba
    · rename_i hba
      rw [List.pairwise_cons]
      refine ⟨?_, ih ht⟩
      intro y hy
      have hy' := (insertDesc_perm a t).mem_iff.mp hy
      rcases List.mem_cons.mp hy' with rfl | hyt
      · exact le_of_lt (lt_of_not_le hba)
      · exact hb y hyt

lemma sortDesc_pairwise (l : List RetrievedDocument) :
    (sortDesc l).Pairwise (fun x y => y.similarity ≤ x.similarity) := by
  induction l with
  | nil => simp [sortDesc]
  | cons a t ih => exact insertDesc_pairwise a (sortDesc t) ih

lemma filter_insertDesc_eq (c : ℚ) (a : RetrievedDocument)
    (ha : a.similarity = c) :
    ∀ l : List RetrievedDocument,
      (insertDesc a l).filter (fun d => decide (d.similarity = c)) =
        a :: l.filter (fun d => decide (d.similarity = c)) := by
  intro l
  induction l with
  | nil => simp [insertDesc, ha]
  | cons b t ih =>
    rw [insertDesc]
    split
    · simp [List.filter_cons, ha]
    · rename_i hba
      have hbc : ¬ (b.similarity = c) := by
        intro hbc
        exact hba (by rw [hbc, ha])
      simp only [List.filter_cons, hbc, decide_eq_true_eq, if_neg, ih]
      simp [hbc]

lemma filter_insertDesc_ne (c : ℚ) (a : RetrievedDocument)
    (ha : ¬ (a.similarity = c)) :
    ∀ l : List RetrievedDocument,
      (insertDesc a l).filter (fun d => decide (d.similarity = c)) =
        l.filter (fun d => decide (d.similarity = c)) := by
  intro l
  induction l with
  | nil => simp [insertDesc, ha]
  | cons b t ih =>
    rw [insertDesc]
    split
    · simp [List.filter_cons, ha]
    · simp only [List.filter_cons, ih]

lemma filter_sortDesc (c : ℚ) (l : List RetrievedDocument) :
    (sortDesc l).filter (fun d => decide (d.similarity = c)) =
      l.filter (fun d => decide (d.similarity = c)) := by
  induction l with
  | nil => rfl
  | cons a t ih =>
    rw [sortDesc]
    by_cases ha : a.similarity = c
    · rw [filter_insertDesc_eq c a ha, ih]
      simp [List.filter_cons, ha]
    · rw [filter_insertDesc_ne c a ha, ih]
      simp [List.filter_cons, ha]

/-- Claim C9 confirmed: the re-ranker is a pure function (identical query and
candidate list give identical output), its sort order is descending in
the boosted similarity, and the sort is stable — for every score `c`, the
documents with boosted similarity `c` appear in the output in their
original relative order (their filtered subsequences coincide). -/
theorem rerank_deterministic_stable (q : List Char) (ds : List RetrievedDocument) :
    rerank_documents q ds = rerank_documents q ds ∧
    (sortDesc (ds.map (boostDoc q))).Perm (ds.map (boostDoc q)) ∧
    (sortDesc (ds.map (boostDoc q))).Pairwise
      (fun x y => y.similarity ≤ x.similarity) ∧
    ∀ c : ℚ,
      (sortDesc (ds.map (boostDoc q))).filter (fun d => decide (d.similarity = c)) =
        (ds.map (boostDoc q)).filter (fun d => decide (d.similarity = c)) :=
  ⟨rfl, sortDesc_perm _, sortDesc_pairwise _, fun c => filter_sortDesc c _⟩

end WhisperMind
